import Mathlib

/-!
Verification of `create_metadata_spreadsheet.py` (ena-consensus-submission).

The script is a linear pandas pipeline: fetch accession triples from a
database, read three reference lists, derive a run key from each line by
string splitting, inner-join everything on `run_accession`, attach a block
of constant parameters by positional concatenation, rename three columns
and write a tab-separated file.

We embed the tabular part with a small dataframe model (column names plus
rows of cells, with an explicit NaN cell because `pd.concat(axis=1)` pads
shorter frames with NaN), and the effectful part (`setup_connection`,
`fetch_metadata`) as a trace-producing function over an abstract world.
-/

/-- A pandas cell: a string, an integer, or NaN (the padding value
`pd.concat` introduces on index misalignment).  `to_csv` renders NaN as
the empty string. -/
inductive Cell where
  | str (s : String)
  | int (n : Int)
  | nan
deriving DecidableEq, Repr

/-- A dataframe: list of column names plus rows of cells.  A well-formed
frame has every row of the same length as `cols`; the pipeline only ever
builds such frames. -/
structure DataFrame where
  cols : List String
  rows : List (List Cell)
deriving DecidableEq, Repr

/-- Cell of `row` in the column named `c`, given the frame's column list
(`Cell.nan` when the column is absent, which never happens in the
pipeline). -/
def getCell (cols : List String) (row : List Cell) (c : String) : Cell :=
  row.getD (cols.findIdx (fun x => x == c)) Cell.nan

/-- Python `str.split(sep)` for a one-character separator, on the
character list of the string.  `''.split('.') == ['']`, so the empty list
yields `[[]]`. -/
def pySplit (d : Char) : List Char → List (List Char)
  | [] => [[]]
  | c :: cs =>
    if c = d then [] :: pySplit d cs
    else
      match pySplit d cs with
      | [] => [[c]]
      | h :: t => (c :: h) :: t

/-- Embedding of `item.split(d)[0]`: the run key the script derives from a reference
line (source line 106/108). -/
def deriveKey (d : Char) (s : String) : String :=
  String.mk ((pySplit d s.data).headD s.data)

/-- Spec-side key derivation, written from the spec's words: "the
substring before the first occurrence of the configured delimiter, or the
full line when absent".  Compared with `deriveKey` in the refinement
theorem for C1. -/
def specDeriveKey (d : Char) (s : String) : String :=
  String.mk (s.data.takeWhile (fun c => c != d))

/-- Embedding of `pd.read_csv(path, sep="\t", header=None)` restricted to its use here:
the script only ever reads `row[0]`, the text before the first tab of each
line. -/
def readList (lines : List String) : DataFrame :=
  { cols := ["0"], rows := lines.map (fun l => [Cell.str l]) }

/-- Embedding of `create_reference_column(df, final_columns)` (source lines 94-111):
for each row take `row[0]`, split on `'.'` when `'FASTA'` is among the
target column names and on `'_'` otherwise, and emit the row
`[item, run]` under the given column names. -/
def create_reference_column (df : DataFrame) (final_columns : List String) : DataFrame :=
  { cols := final_columns,
    rows := df.rows.map (fun row =>
      let item := match row.headD Cell.nan with
        | Cell.str s => s
        | Cell.int n => toString n
        | Cell.nan => ""
      let run := if final_columns.contains "FASTA" then deriveKey '.' item
                 else deriveKey '_' item
      [Cell.str item, Cell.str run]) }

/-- Embedding of `pd.merge(l, r, on=key)`: inner join.  Result columns are the left
columns (the key stays at its left position) followed by the non-key right
columns; result rows pair each left row, in order, with every matching
right row, in order. -/
def DataFrame.mergeOn (l r : DataFrame) (key : String) : DataFrame :=
  { cols := l.cols ++ r.cols.filter (fun c => c != key),
    rows := l.rows.flatMap (fun lr =>
      (r.rows.filter (fun rr =>
        decide (getCell r.cols rr key = getCell l.cols lr key))).map
        (fun rr => lr ++ ((r.cols.zip rr).filter (fun p => p.1 != key)).map Prod.snd)) }

/-- Embedding of `pd.concat([l, r], axis=1, sort=False)` on freshly range-indexed
frames: outer-align the row indices, padding the shorter frame with NaN
rows. -/
def DataFrame.concatCols (l r : DataFrame) : DataFrame :=
  { cols := l.cols ++ r.cols,
    rows := (List.range (max l.rows.length r.rows.length)).map (fun i =>
      l.rows.getD i (l.cols.map (fun _ => Cell.nan)) ++
      r.rows.getD i (r.cols.map (fun _ => Cell.nan))) }

/-- Embedding of `df.rename(columns=m)`: replace each column name by its image under
the mapping when present, leave it unchanged otherwise.  Rows are
untouched. -/
def DataFrame.renameCols (df : DataFrame) (m : List (String × String)) : DataFrame :=
  { cols := df.cols.map (fun c =>
      match m.find? (fun p => p.1 == c) with
      | some p => p.2
      | none => c),
    rows := df.rows }

/-- Rendering of one cell by `to_csv`: strings verbatim, integers in
decimal, NaN as the empty string. -/
def renderCell : Cell → String
  | Cell.str s => s
  | Cell.int n => toString n
  | Cell.nan => ""

/-- One output line per list element, each terminated by a newline, as
`to_csv` writes them. -/
def csvLines : List String → String
  | [] => ""
  | l :: ls => l ++ "\n" ++ csvLines ls

/-- Embedding of `df.to_csv(path, sep="\t", index=False)`: header line of the column
names, then one line per row, all tab-separated, no index column. -/
def toCsv (df : DataFrame) : String :=
  csvLines (String.intercalate "\t" df.cols ::
    df.rows.map (fun r => String.intercalate "\t" (r.map renderCell)))

/-- The delimiter `create_reference_column` selects for a given target
column list: `'.'` when `'FASTA'` is among the column names, `'_'`
otherwise (source lines 104-108). -/
def refDelim (final_columns : List String) : Char :=
  if final_columns.contains "FASTA" then '.' else '_'

/-- One accession triple fetched by the SQL query:
(study_accession, sample_accession, run_accession). -/
structure Accession where
  study : String
  sample : String
  run : String
deriving DecidableEq, Repr

/-- The fetched `project_data` frame (source lines 89-90). -/
def projectDataFrame (acc : List Accession) : DataFrame :=
  { cols := ["study_accession", "sample_accession", "run_accession"],
    rows := acc.map (fun a => [Cell.str a.study, Cell.str a.sample, Cell.str a.run]) }

/-- The constant parameter row (source line 145). -/
def parameterRow : List Cell :=
  [Cell.str "COVID-19 outbreak", Cell.int 30, Cell.str "Minimap2",
   Cell.str "OXFORD_NANOPORE", Cell.int 1, Cell.str "genomic DNA"]

/-- Embedding of `set_parameters` (source lines 145-149): the constant row replicated
once per row of `project_data`. -/
def setParameters (acc : List Accession) : DataFrame :=
  { cols := ["ASSEMBLY_TYPE", "COVERAGE", "PROGRAM", "PLATFORM", "MINGAPLENGTH",
             "MOLECULETYPE"],
    rows := (List.range acc.length).map (fun _ => parameterRow) }

/-- The frame `linked_assembly_names` (source line 139). -/
def linkedAssemblyNames (names : List String) : DataFrame :=
  create_reference_column (readList names) ["ASSEMBLYNAME", "run_accession"]

/-- The frame `linked_fasta_files` (source line 136). -/
def linkedFastaFiles (fastas : List String) : DataFrame :=
  create_reference_column (readList fastas) ["FASTA", "run_accession"]

/-- The frame `linked_chromosome_lists` (source line 142). -/
def linkedChromosomeLists (chroms : List String) : DataFrame :=
  create_reference_column (readList chroms) ["CHROMOSOME_LIST", "run_accession"]

/-- The frame `project_assembly` after the first merge (source lines 152-153). -/
def projectAssembly (acc : List Accession) (names : List String) : DataFrame :=
  (projectDataFrame acc).mergeOn (linkedAssemblyNames names) "run_accession"

/-- The frame `project_assembly` after the positional concatenation with
`set_parameters` (source lines 154-155). -/
def projectAssemblyParams (acc : List Accession) (names : List String) : DataFrame :=
  (projectAssembly acc names).concatCols (setParameters acc)

/-- The frame `project_assembly_fasta` (source lines 156-157). -/
def projectAssemblyFasta (acc : List Accession) (names : List String)
    (fastas : List String) : DataFrame :=
  (projectAssemblyParams acc names).mergeOn (linkedFastaFiles fastas) "run_accession"

/-- The frame `total_metadata` before the rename (source lines 158-159). -/
def totalMetadataRaw (acc : List Accession) (names : List String)
    (fastas : List String) (chroms : List String) : DataFrame :=
  (projectAssemblyFasta acc names fastas).mergeOn (linkedChromosomeLists chroms)
    "run_accession"

/-- The rename mapping of source lines 161-162. -/
def renameMap : List (String × String) :=
  [("study_accession", "STUDY"), ("sample_accession", "SAMPLE"),
   ("run_accession", "RUN_REF")]

/-- The frame `total_metadata` after the rename (source lines 161-162). -/
def totalMetadata (acc : List Accession) (names : List String)
    (fastas : List String) (chroms : List String) : DataFrame :=
  (totalMetadataRaw acc names fastas chroms).renameCols renameMap

/-- The final write (source lines 163-164): the produced filename together
with the file's content. -/
def writeOutput (project : String) (acc : List Accession) (names : List String)
    (fastas : List String) (chroms : List String) : String × String :=
  (project ++ "_Consensus_Metadata-TEST.txt",
   toCsv (totalMetadata acc names fastas chroms))

/-- The header line the pipeline actually writes (column names joined by
tabs, in merge order). -/
def finalHeader : String :=
  "STUDY\tSAMPLE\tRUN_REF\tASSEMBLYNAME\tASSEMBLY_TYPE\tCOVERAGE\tPROGRAM\tPLATFORM\tMINGAPLENGTH\tMOLECULETYPE\tFASTA\tCHROMOSOME_LIST"

/-! ## Effect model for `MetadataFromDatabase`

`fetch_metadata` (source lines 79-91) prompts for credentials, calls
`setup_connection` (source lines 61-77), and queries the database only
when a connection object was set.  We record the externally visible
events in order and model `exit(1)` by an `exited` outcome that aborts
the rest of the function. -/

/-- Externally visible events of `fetch_metadata`, in program order. -/
inductive Event where
  | promptCredentials
  | stderrWrite (msg : String)
  | exitCall (code : Nat)
  | initOracleClient (dir : String)
  | connectAttempt
  | printError
  | dbQuery
deriving DecidableEq, Repr

/-- Outcome of a fragment of the script: either `exit(code)` was reached,
or the fragment returned a value. -/
inductive Outcome (α : Type) where
  | exited (code : Nat)
  | normal (a : α)
deriving DecidableEq, Repr

/-- The parts of the outside world `setup_connection` and
`fetch_metadata` observe: the `ORACLE_CLIENT_LIB` environment variable
(`none` when unset), which paths are directories, whether
`cx_Oracle.connect` succeeds, and the rows the query would return. -/
structure World where
  oracleClientLib : Option String
  isDirectory : String → Bool
  connectSucceeds : Bool
  queryRows : List Accession

/-- The diagnostic of source line 68. -/
def clientLibErrMsg : String :=
  "ERROR: Environment variable $ORACLE_CLIENT_LIB must point at a valid directory\n"

/-- Embedding of `setup_connection` (source lines 61-77): read `ORACLE_CLIENT_LIB`,
exit(1) with a stderr diagnostic when it is falsy (unset or empty) or not
a directory; otherwise initialise the client and try to connect, catching
and printing a connection error.  Returns the event trace and, on normal
return, whether `self.connection` was set. -/
def setup_connection (w : World) : List Event × Outcome Bool :=
  match w.oracleClientLib with
  | none => ([Event.stderrWrite clientLibErrMsg, Event.exitCall 1], Outcome.exited 1)
  | some d =>
    if d = "" ∨ w.isDirectory d = false then
      ([Event.stderrWrite clientLibErrMsg, Event.exitCall 1], Outcome.exited 1)
    else if w.connectSucceeds then
      ([Event.initOracleClient d, Event.connectAttempt], Outcome.normal true)
    else
      ([Event.initOracleClient d, Event.connectAttempt, Event.printError],
       Outcome.normal false)

/-- Embedding of `fetch_metadata` (source lines 79-91): prompt for credentials first,
then set up the connection, then query only if `self.connection is not
None`; when the connection is unset the function falls through and
returns `None`. -/
def fetch_metadata (w : World) : List Event × Outcome (Option (List Accession)) :=
  let tr := [Event.promptCredentials]
  match setup_connection w with
  | (tr2, Outcome.exited c) => (tr ++ tr2, Outcome.exited c)
  | (tr2, Outcome.normal true) =>
    (tr ++ tr2 ++ [Event.dbQuery], Outcome.normal (some w.queryRows))
  | (tr2, Outcome.normal false) => (tr ++ tr2, Outcome.normal none)

/-! ## Helper lemmas -/

theorem pySplit_ne_nil (d : Char) (l : List Char) : pySplit d l ≠ [] := by
  induction l with
  | nil => simp [pySplit]
  | cons c cs ih =>
    simp only [pySplit]
    split
    · simp
    · cases h : pySplit d cs with
      | nil => exact absurd h ih
      | cons hd tl => simp [h]

theorem pySplit_headD (d : Char) (l : List Char) (dflt : List Char) :
    (pySplit d l).headD dflt = l.takeWhile (fun c => c != d) := by
  induction l generalizing dflt with
  | nil => rfl
  | cons c cs ih =>
    by_cases h : c = d
    · subst h
      simp [pySplit, List.takeWhile_cons]
    · have hb : (c != d) = true := by simp [h]
      simp only [pySplit, if_neg h, List.takeWhile_cons, hb]
      cases hsp : pySplit d cs with
      | nil => exact absurd hsp (pySplit_ne_nil d cs)
      | cons hd tl =>
        have := ih dflt
        rw [hsp] at this
        simpa using this

theorem deriveKey_eq_specDeriveKey (d : Char) (s : String) :
    deriveKey d s = specDeriveKey d s := by
  unfold deriveKey specDeriveKey
  rw [pySplit_headD]

theorem create_reference_column_rows (lines : List String) (fc : List String) :
    (create_reference_column (readList lines) fc).rows
      = lines.map (fun l => [Cell.str l, Cell.str (deriveKey (refDelim fc) l)]) := by
  simp only [create_reference_column, readList, refDelim, List.map_map]
  refine List.map_congr_left (fun l _ => ?_)
  by_cases h : "FASTA" ∈ fc <;> simp [h]

theorem create_reference_column_cols (df : DataFrame) (fc : List String) :
    (create_reference_column df fc).cols = fc := rfl

theorem mergeOn_linked_rows (acc : List Accession) (lines : List String)
    (v : String) (hv : v ≠ "run_accession") :
    ((projectDataFrame acc).mergeOn
        (create_reference_column (readList lines) [v, "run_accession"])
        "run_accession").rows
      = acc.flatMap (fun a =>
          (lines.filter (fun l =>
            decide (deriveKey (refDelim [v, "run_accession"]) l = a.run))).map
            (fun l => [Cell.str a.study, Cell.str a.sample, Cell.str a.run,
                       Cell.str l])) := by
  have hvb : (v == "run_accession") = false := beq_eq_false_iff_ne.mpr hv
  simp only [DataFrame.mergeOn, projectDataFrame, create_reference_column_rows,
    create_reference_column_cols, List.flatMap_map]
  congr 1
  funext a
  rw [List.filter_map, List.map_map]
  have hp : ∀ l : String,
      (fun rr => decide (getCell [v, "run_accession"] rr "run_accession"
          = getCell ["study_accession", "sample_accession", "run_accession"]
              [Cell.str a.study, Cell.str a.sample, Cell.str a.run] "run_accession")) ∘
        (fun l => [Cell.str l, Cell.str (deriveKey (refDelim [v, "run_accession"]) l)])
        = fun l =>
            decide (deriveKey (refDelim [v, "run_accession"]) l = a.run) := by
    intro l
    funext x
    simp [getCell, List.findIdx_cons, hvb]
  rw [hp ""]
  refine List.map_congr_left (fun l _ => ?_)
  simp [List.filter_cons, bne, hvb]

theorem countP_eq_one_of_nodup_mem {keys : List String} {r : String}
    (h : keys.Nodup) (hm : r ∈ keys) :
    keys.countP (fun k => decide (k = r)) = 1 := by
  have : keys.count r = 1 := List.count_eq_one_of_mem h hm
  rwa [List.count_eq_countP] at this

theorem sum_countP_filter (runs keys : List String) (h : keys.Nodup) :
    (runs.map (fun r => keys.countP (fun k => decide (k = r)))).sum
      = (runs.filter (fun r => decide (r ∈ keys))).length := by
  induction runs with
  | nil => simp
  | cons r rs ih =>
    simp only [List.map_cons, List.sum_cons, List.filter_cons]
    by_cases hm : r ∈ keys
    · rw [countP_eq_one_of_nodup_mem h hm, ih]
      simp [hm, Nat.add_comm]
    · rw [List.countP_eq_zero.mpr (fun a ha hp => hm (by
        simpa using (of_decide_eq_true hp) ▸ ha)), ih]
      simp [hm]

theorem mergeOn_linked_length (acc : List Accession) (lines : List String)
    (v : String) (hv : v ≠ "run_accession")
    (hnd : (lines.map (deriveKey (refDelim [v, "run_accession"]))).Nodup) :
    ((projectDataFrame acc).mergeOn
        (create_reference_column (readList lines) [v, "run_accession"])
        "run_accession").rows.length
      = ((acc.map Accession.run).filter (fun r =>
          decide (r ∈ lines.map (deriveKey (refDelim [v, "run_accession"]))))).length := by
  rw [mergeOn_linked_rows acc lines v hv, List.length_flatMap]
  have hstep : ∀ a : Accession,
      ((lines.filter (fun l =>
        decide (deriveKey (refDelim [v, "run_accession"]) l = a.run))).map
          (fun l => [Cell.str a.study, Cell.str a.sample, Cell.str a.run,
                     Cell.str l])).length
      = (lines.map (deriveKey (refDelim [v, "run_accession"]))).countP
          (fun k => decide (k = a.run)) := by
    intro a
    rw [List.length_map, ← List.countP_eq_length_filter, List.countP_map]
    rfl
  calc (acc.map (List.length ∘ fun a =>
        (List.filter (fun l =>
          decide (deriveKey (refDelim [v, "run_accession"]) l = a.run)) lines).map
          (fun l => [Cell.str a.study, Cell.str a.sample, Cell.str a.run,
                     Cell.str l]))).sum
      = ((acc.map Accession.run).map (fun r =>
          (lines.map (deriveKey (refDelim [v, "run_accession"]))).countP
            (fun k => decide (k = r)))).sum := by
        rw [List.map_map]
        exact congrArg List.sum (List.map_congr_left (fun a _ => hstep a))
    _ = ((acc.map Accession.run).filter (fun r =>
          decide (r ∈ lines.map (deriveKey (refDelim [v, "run_accession"]))))).length :=
        sum_countP_filter _ _ hnd

theorem sum_ite_single (runs : List String) (r : String) (k : Nat)
    (hnr : runs.Nodup) (hr : r ∈ runs) :
    (runs.map (fun x => if x = r then k else 0)).sum = k := by
  induction runs with
  | nil => cases hr
  | cons x xs ih =>
    simp only [List.map_cons, List.sum_cons]
    rcases List.mem_cons.mp hr with h | h
    · have hz : (xs.map (fun y => if y = r then k else 0)).sum = 0 :=
        List.sum_eq_zero (fun y hy => by
          rcases List.mem_map.mp hy with ⟨z, hzz, hzy⟩
          have hne : z ≠ r := by
            rintro rfl
            exact (List.nodup_cons.mp hnr).1 (h ▸ hzz)
          simpa [hne] using hzy.symm)
      rw [if_pos h.symm, hz]
      simp
    · have hx : x ≠ r := by
        rintro rfl
        exact (List.nodup_cons.mp hnr).1 h
      rw [if_neg hx, ih (List.nodup_cons.mp hnr).2 h]
      simp

theorem mem_mergeOn_rows {l r : DataFrame} {key : String} {row : List Cell} :
    row ∈ (l.mergeOn r key).rows ↔
      ∃ lr ∈ l.rows, ∃ rr ∈ r.rows,
        getCell r.cols rr key = getCell l.cols lr key ∧
        row = lr ++ ((r.cols.zip rr).filter (fun p => p.1 != key)).map Prod.snd := by
  simp only [DataFrame.mergeOn, List.mem_flatMap, List.mem_map, List.mem_filter,
    decide_eq_true_eq]
  constructor
  · rintro ⟨lr, hlr, rr, ⟨hrr, hcond⟩, hrow⟩
    exact ⟨lr, hlr, rr, hrr, hcond, hrow.symm⟩
  · rintro ⟨lr, hlr, rr, hrr, hcond, hrow⟩
    exact ⟨lr, hlr, rr, ⟨hrr, hcond⟩, hrow.symm⟩

theorem mem_concatCols_rows {l r : DataFrame} {row : List Cell} :
    row ∈ (l.concatCols r).rows ↔
      ∃ i < max l.rows.length r.rows.length,
        row = l.rows.getD i (l.cols.map (fun _ => Cell.nan)) ++
              r.rows.getD i (r.cols.map (fun _ => Cell.nan)) := by
  simp only [DataFrame.concatCols, List.mem_map, List.mem_range]
  constructor
  · rintro ⟨i, hi, hrow⟩
    exact ⟨i, hi, hrow.symm⟩
  · rintro ⟨i, hi, hrow⟩
    exact ⟨i, hi, hrow.symm⟩

theorem setParameters_getD (acc : List Accession) {i : Nat} (h : i < acc.length)
    (d : List Cell) : (setParameters acc).rows.getD i d = parameterRow := by
  unfold setParameters
  rw [List.getD_eq_getElem?_getD, List.getElem?_map, List.getElem?_range h]
  rfl

theorem mem_projectAssembly_rows {acc : List Accession} {names : List String}
    {row : List Cell} (h : row ∈ (projectAssembly acc names).rows) :
    ∃ a ∈ acc, ∃ nm ∈ names, deriveKey '_' nm = a.run ∧
      row = [Cell.str a.study, Cell.str a.sample, Cell.str a.run, Cell.str nm] := by
  have hd : refDelim ["ASSEMBLYNAME", "run_accession"] = '_' := rfl
  have hrows := mergeOn_linked_rows acc names "ASSEMBLYNAME" (by decide)
  rw [hd] at hrows
  rw [projectAssembly, linkedAssemblyNames, hrows] at h
  rcases List.mem_flatMap.mp h with ⟨a, ha, hmem⟩
  rcases List.mem_map.mp hmem with ⟨nm, hnm, hrow2⟩
  rcases List.mem_filter.mp hnm with ⟨hnm1, hnm2⟩
  exact ⟨a, ha, nm, hnm1, of_decide_eq_true hnm2, hrow2.symm⟩

theorem mem_totalMetadata_rows (acc : List Accession)
    (names fastas chroms : List String)
    (hM : (projectAssembly acc names).rows.length ≤ acc.length) :
    ∀ row ∈ (totalMetadata acc names fastas chroms).rows,
      ∃ a ∈ acc, ∃ nm ∈ names, ∃ f ∈ fastas, ∃ c ∈ chroms,
        deriveKey '_' nm = a.run ∧ deriveKey '.' f = a.run ∧
        deriveKey '_' c = a.run ∧
        row = [Cell.str a.study, Cell.str a.sample, Cell.str a.run, Cell.str nm]
              ++ parameterRow ++ [Cell.str f, Cell.str c] := by
  intro row hrow
  have hrow' : row ∈ (totalMetadataRaw acc names fastas chroms).rows := hrow
  rw [totalMetadataRaw] at hrow'
  rcases mem_mergeOn_rows.mp hrow' with ⟨row2, hrow2, rrc, hrrc, hcondc, heqc⟩
  rw [linkedChromosomeLists, create_reference_column_rows] at hrrc
  rcases List.mem_map.mp hrrc with ⟨c, hc, hrrceq⟩
  rw [projectAssemblyFasta] at hrow2
  rcases mem_mergeOn_rows.mp hrow2 with ⟨row1, hrow1, rrf, hrrf, hcondf, heqf⟩
  rw [linkedFastaFiles, create_reference_column_rows] at hrrf
  rcases List.mem_map.mp hrrf with ⟨f, hf, hrrfeq⟩
  rw [projectAssemblyParams] at hrow1
  rcases mem_concatCols_rows.mp hrow1 with ⟨i, hi, heq1⟩
  have hsp : (setParameters acc).rows.length = acc.length := by simp [setParameters]
  rw [hsp] at hi
  have hi2 : i < acc.length := by
    rcases Nat.lt_or_ge i acc.length with h | h
    · exact h
    · exact absurd hi (by
        have : max (projectAssembly acc names).rows.length acc.length = acc.length :=
          max_eq_right hM
        omega)
  rw [setParameters_getD acc hi2] at heq1
  by_cases hiM : i < (projectAssembly acc names).rows.length
  · have hmem : (projectAssembly acc names).rows.getD i
        ((projectAssembly acc names).cols.map (fun _ => Cell.nan))
        ∈ (projectAssembly acc names).rows := by
      rw [List.getD_eq_getElem _ _ hiM]
      exact List.getElem_mem hiM
    rcases mem_projectAssembly_rows hmem with ⟨a, ha, nm, hnm, hkeynm, hleft⟩
    rw [hleft] at heq1
    subst heq1
    subst hrrfeq
    have hkf : deriveKey '.' f = a.run := by
      have : Cell.str (deriveKey '.' f) = Cell.str a.run := hcondf
      exact Cell.str.inj this
    subst heqf
    subst hrrceq
    have hkc : deriveKey '_' c = a.run := by
      have : Cell.str (deriveKey '_' c) = Cell.str a.run := hcondc
      exact Cell.str.inj this
    subst heqc
    exact ⟨a, ha, nm, hnm, f, hf, c, hc, hkeynm, hkf, hkc, by
      simp [linkedFastaFiles, linkedChromosomeLists, create_reference_column_cols,
        List.append_assoc]⟩
  · exfalso
    have hdef : (projectAssembly acc names).rows.getD i
        ((projectAssembly acc names).cols.map (fun _ => Cell.nan))
        = (projectAssembly acc names).cols.map (fun _ => Cell.nan) :=
      List.getD_eq_default _ _ (Nat.le_of_not_lt hiM)
    rw [hdef] at heq1
    subst heq1
    subst hrrfeq
    exact Cell.noConfusion hcondf

/-! ## Claim theorems -/

/-- C1: for every input line of every reference list, the derived run key
is the substring of the line before the first occurrence of that list's
delimiter — `'.'` for the FASTA filename list, `'_'` for the
assembly-name and chromosome-list lists — the whole line when the
delimiter is absent, and the emitted row is (original line, derived
key). -/
theorem reference_key_derivation :
    (∀ fastas : List String, (linkedFastaFiles fastas).rows
        = fastas.map (fun l => [Cell.str l, Cell.str (specDeriveKey '.' l)])) ∧
    (∀ names : List String, (linkedAssemblyNames names).rows
        = names.map (fun l => [Cell.str l, Cell.str (specDeriveKey '_' l)])) ∧
    (∀ chroms : List String, (linkedChromosomeLists chroms).rows
        = chroms.map (fun l => [Cell.str l, Cell.str (specDeriveKey '_' l)])) ∧
    (∀ (d : Char) (s : String), deriveKey d s = specDeriveKey d s) ∧
    (∀ (d : Char) (s : String), d ∉ s.data → deriveKey d s = s) := by
  refine ⟨?_, ?_, ?_, deriveKey_eq_specDeriveKey, ?_⟩
  · intro fastas
    rw [linkedFastaFiles, create_reference_column_rows]
    simp only [deriveKey_eq_specDeriveKey]
    rfl
  · intro names
    rw [linkedAssemblyNames, create_reference_column_rows]
    simp only [deriveKey_eq_specDeriveKey]
    rfl
  · intro chroms
    rw [linkedChromosomeLists, create_reference_column_rows]
    simp only [deriveKey_eq_specDeriveKey]
    rfl
  · intro d s hd
    rw [deriveKey_eq_specDeriveKey]
    unfold specDeriveKey
    have : s.data.takeWhile (fun c => c != d) = s.data :=
      List.takeWhile_eq_self_iff.mpr (fun c hc => by
        simp only [bne_iff_ne, ne_eq]
        exact fun h => hd (h ▸ hc))
    rw [this]

/-- Witness for C1 at concrete inputs. -/
theorem reference_key_derivation_witness :
    (linkedFastaFiles ["R1.fasta"]).rows = [[Cell.str "R1.fasta", Cell.str "R1"]] ∧
    ('_' ∉ "R1.fasta".data ∧ deriveKey '_' "R1.fasta" = "R1.fasta") := by
  refine ⟨?_, by decide, reference_key_derivation.2.2.2.2 '_' "R1.fasta" (by decide)⟩
  have h := reference_key_derivation.1 ["R1.fasta"]
  rw [h]
  rfl

/-- C3 counterexample: on a concrete run the written table's column order
is not STUDY, SAMPLE, ASSEMBLYNAME, ..., MOLECULETYPE, RUN_REF, FASTA,
CHROMOSOME_LIST — `pd.merge` keeps the join key at its position in the
left frame, so RUN_REF is the third column, not the tenth. -/
theorem final_column_order_counterexample :
    (totalMetadata [⟨"S1", "SA1", "R1"⟩] ["R1_n"] ["R1.fasta"] ["R1_c"]).cols
      ≠ ["STUDY", "SAMPLE", "ASSEMBLYNAME", "ASSEMBLY_TYPE", "COVERAGE", "PROGRAM",
         "PLATFORM", "MINGAPLENGTH", "MOLECULETYPE", "RUN_REF", "FASTA",
         "CHROMOSOME_LIST"] := by
  decide

/-- C3 amended: for every input, the written table's columns appear in the
order STUDY, SAMPLE, RUN_REF, ASSEMBLYNAME, ASSEMBLY_TYPE, COVERAGE,
PROGRAM, PLATFORM, MINGAPLENGTH, MOLECULETYPE, FASTA, CHROMOSOME_LIST. -/
theorem final_column_order (acc : List Accession) (names fastas chroms : List String) :
    (totalMetadata acc names fastas chroms).cols
      = ["STUDY", "SAMPLE", "RUN_REF", "ASSEMBLYNAME", "ASSEMBLY_TYPE", "COVERAGE",
         "PROGRAM", "PLATFORM", "MINGAPLENGTH", "MOLECULETYPE", "FASTA",
         "CHROMOSOME_LIST"] := rfl

/-- C8: for every project identifier `p` the program writes the final
table as tab-separated text to a file named exactly
`p ++ "_Consensus_Metadata-TEST.txt"`, whose first line is the header of
the twelve column names and whose remaining lines are exactly the rows'
cells rendered tab-separated — no index column. -/
theorem write_output_spec (p : String) (acc : List Accession)
    (names fastas chroms : List String) :
    (writeOutput p acc names fastas chroms).1 = p ++ "_Consensus_Metadata-TEST.txt" ∧
    (writeOutput p acc names fastas chroms).2
      = finalHeader ++ "\n" ++
        csvLines ((totalMetadata acc names fastas chroms).rows.map
          (fun r => String.intercalate "\t" (r.map renderCell))) := by
  exact ⟨rfl, rfl⟩

/-- C10: the final rename changes only the three column headers
study_accession, sample_accession and run_accession (to STUDY, SAMPLE,
RUN_REF); every other column name, the row count, the row order and every
cell value are unchanged. -/
theorem rename_frame_effect (df : DataFrame) :
    (df.renameCols renameMap).rows = df.rows ∧
    (df.renameCols renameMap).cols = df.cols.map (fun c =>
      if c = "study_accession" then "STUDY"
      else if c = "sample_accession" then "SAMPLE"
      else if c = "run_accession" then "RUN_REF" else c) ∧
    (df.renameCols renameMap).cols.length = df.cols.length := by
  refine ⟨rfl, ?_, ?_⟩
  · simp only [DataFrame.renameCols, renameMap]
    refine List.map_congr_left (fun c _ => ?_)
    by_cases h1 : c = "study_accession"
    · simp [h1, List.find?]
    · by_cases h2 : c = "sample_accession"
      · simp [h2, List.find?]
      · by_cases h3 : c = "run_accession"
        · simp [h3, List.find?]
        · have e1 : ("study_accession" == c) = false :=
            beq_eq_false_iff_ne.mpr (Ne.symm h1)
          have e2 : ("sample_accession" == c) = false :=
            beq_eq_false_iff_ne.mpr (Ne.symm h2)
          have e3 : ("run_accession" == c) = false :=
            beq_eq_false_iff_ne.mpr (Ne.symm h3)
          simp [List.find?, e1, e2, e3, h1, h2, h3]
  · simp [DataFrame.renameCols]

/-- C4 counterexample: with accessions R1, R2 and assembly lines
"R1_a", "R1_b", "R1_c" the derived key set is the strict subset
containing only "R1", yet the inner join yields 3 rows — more than the
intersection size 1 and more than N = 2 — because pandas pairs every
matching right row with the left row. -/
theorem inner_join_row_count_counterexample :
    (["R1_a", "R1_b", "R1_c"].map (deriveKey '_') = ["R1", "R1", "R1"] ∧
     (["R1_a", "R1_b", "R1_c"].map (deriveKey '_')).toFinset
       ⊂ ([⟨"S1", "SA1", "R1"⟩, ⟨"S1", "SA2", "R2"⟩].map Accession.run).toFinset) ∧
    (projectAssembly [⟨"S1", "SA1", "R1"⟩, ⟨"S1", "SA2", "R2"⟩]
        ["R1_a", "R1_b", "R1_c"]).rows.length = 3 ∧
    ¬ (projectAssembly [⟨"S1", "SA1", "R1"⟩, ⟨"S1", "SA2", "R2"⟩]
        ["R1_a", "R1_b", "R1_c"]).rows.length ≤ 2 := by
  refine ⟨by decide, ?_, ?_⟩ <;> decide

/-- C4 amended: when the derived keys of the reference list are pairwise
distinct and the run accessions are pairwise distinct, the inner join on
the run key yields exactly the matching rows: its row count is the
cardinality of the intersection of the two key sets, hence at most N,
and every output row pairs an accession with a reference line whose
derived key equals that accession's run. -/
theorem inner_join_row_count (acc : List Accession) (lines : List String)
    (v : String) (hv : v ≠ "run_accession")
    (hnd : (lines.map (deriveKey (refDelim [v, "run_accession"]))).Nodup)
    (hnr : (acc.map Accession.run).Nodup) :
    ((projectDataFrame acc).mergeOn
        (create_reference_column (readList lines) [v, "run_accession"])
        "run_accession").rows.length
      = ((acc.map Accession.run).toFinset ∩
         (lines.map (deriveKey (refDelim [v, "run_accession"]))).toFinset).card ∧
    ((projectDataFrame acc).mergeOn
        (create_reference_column (readList lines) [v, "run_accession"])
        "run_accession").rows.length ≤ acc.length ∧
    (∀ row ∈ ((projectDataFrame acc).mergeOn
        (create_reference_column (readList lines) [v, "run_accession"])
        "run_accession").rows,
      ∃ a ∈ acc, ∃ l ∈ lines,
        deriveKey (refDelim [v, "run_accession"]) l = a.run ∧
        row = [Cell.str a.study, Cell.str a.sample, Cell.str a.run, Cell.str l]) := by
  have hlen := mergeOn_linked_length acc lines v hv hnd
  refine ⟨?_, ?_, ?_⟩
  · rw [hlen]
    have hfd : ((acc.map Accession.run).filter (fun r =>
        decide (r ∈ lines.map (deriveKey (refDelim [v, "run_accession"]))))).Nodup :=
      hnr.filter _
    rw [← List.toFinset_card_of_nodup hfd]
    congr 1
    ext x
    simp [List.mem_toFinset, List.mem_filter]
  · rw [hlen]
    calc ((acc.map Accession.run).filter (fun r =>
          decide (r ∈ lines.map (deriveKey (refDelim [v, "run_accession"]))))).length
        ≤ (acc.map Accession.run).length := List.length_filter_le _ _
      _ = acc.length := List.length_map _ _
  · intro row hrow
    rw [mergeOn_linked_rows acc lines v hv] at hrow
    rcases List.mem_flatMap.mp hrow with ⟨a, ha, hmem⟩
    rcases List.mem_map.mp hmem with ⟨l, hl, hrow2⟩
    rcases List.mem_filter.mp hl with ⟨hl1, hl2⟩
    exact ⟨a, ha, l, hl1, of_decide_eq_true hl2, hrow2.symm⟩

/-- Witness for C4's amended theorem at distinct keys and runs. -/
theorem inner_join_row_count_witness :
    ((projectDataFrame [⟨"S1", "SA1", "R1"⟩, ⟨"S1", "SA2", "R2"⟩]).mergeOn
        (create_reference_column (readList ["R1_n1"])
          ["ASSEMBLYNAME", "run_accession"])
        "run_accession").rows.length ≤ 2 :=
  (inner_join_row_count [⟨"S1", "SA1", "R1"⟩, ⟨"S1", "SA2", "R2"⟩] ["R1_n1"]
    "ASSEMBLYNAME" (by decide) (by decide) (by decide)).2.1

/-- C6 counterexample: with one accession R1 and two assembly lines both
keyed R1, the assembly join has 2 rows but `set_parameters` only 1, so
`pd.concat` pads the second row with NaN: the written table's second row
carries NaN — not the constants — in all six parameter columns. -/
theorem constant_parameter_rows_counterexample :
    (totalMetadata [⟨"S", "SA", "R1"⟩] ["R1_a", "R1_b"] ["R1.f"] ["R1_c"]).rows.length
      = 2 ∧
    (totalMetadata [⟨"S", "SA", "R1"⟩] ["R1_a", "R1_b"] ["R1.f"] ["R1_c"]).rows.getD 1 []
      ∈ (totalMetadata [⟨"S", "SA", "R1"⟩] ["R1_a", "R1_b"] ["R1.f"] ["R1_c"]).rows ∧
    getCell (totalMetadata [⟨"S", "SA", "R1"⟩] ["R1_a", "R1_b"] ["R1.f"] ["R1_c"]).cols
      ((totalMetadata [⟨"S", "SA", "R1"⟩] ["R1_a", "R1_b"] ["R1.f"] ["R1_c"]).rows.getD 1 [])
      "ASSEMBLY_TYPE" = Cell.nan ∧
    Cell.nan ≠ Cell.str "COVID-19 outbreak" := by
  refine ⟨by decide, by decide, by decide, by decide⟩

/-- C6 amended: provided the assembly-name join produces at most as many
rows as the accession table (in particular whenever the derived assembly
keys are pairwise distinct), every row of the final written table carries
the constant parameter values ASSEMBLY_TYPE="COVID-19 outbreak",
COVERAGE=30, PROGRAM="Minimap2", PLATFORM="OXFORD_NANOPORE",
MINGAPLENGTH=1, MOLECULETYPE="genomic DNA". -/
theorem constant_parameter_rows (acc : List Accession)
    (names fastas chroms : List String)
    (hM : (projectAssembly acc names).rows.length ≤ acc.length) :
    ∀ row ∈ (totalMetadata acc names fastas chroms).rows,
      getCell (totalMetadata acc names fastas chroms).cols row "ASSEMBLY_TYPE"
        = Cell.str "COVID-19 outbreak" ∧
      getCell (totalMetadata acc names fastas chroms).cols row "COVERAGE"
        = Cell.int 30 ∧
      getCell (totalMetadata acc names fastas chroms).cols row "PROGRAM"
        = Cell.str "Minimap2" ∧
      getCell (totalMetadata acc names fastas chroms).cols row "PLATFORM"
        = Cell.str "OXFORD_NANOPORE" ∧
      getCell (totalMetadata acc names fastas chroms).cols row "MINGAPLENGTH"
        = Cell.int 1 ∧
      getCell (totalMetadata acc names fastas chroms).cols row "MOLECULETYPE"
        = Cell.str "genomic DNA" := by
  intro row hrow
  rcases mem_totalMetadata_rows acc names fastas chroms hM row hrow with
    ⟨a, _, nm, _, f, _, c, _, _, _, _, hshape⟩
  subst hshape
  exact ⟨rfl, rfl, rfl, rfl, rfl, rfl⟩

/-- Witness for C6's amended theorem on the two-run scenario. -/
theorem constant_parameter_rows_witness :
    getCell (totalMetadata [⟨"S1", "SA1", "R1"⟩, ⟨"S1", "SA2", "R2"⟩]
        ["R1_n1", "R2_n2"] ["R1.fasta", "R2.fasta"] ["R1_chr", "R2_chr"]).cols
      ((totalMetadata [⟨"S1", "SA1", "R1"⟩, ⟨"S1", "SA2", "R2"⟩]
        ["R1_n1", "R2_n2"] ["R1.fasta", "R2.fasta"] ["R1_chr", "R2_chr"]).rows.getD 0 [])
      "ASSEMBLY_TYPE" = Cell.str "COVID-19 outbreak" :=
  (constant_parameter_rows [⟨"S1", "SA1", "R1"⟩, ⟨"S1", "SA2", "R2"⟩]
    ["R1_n1", "R2_n2"] ["R1.fasta", "R2.fasta"] ["R1_chr", "R2_chr"] (by decide)
    _ (by decide)).1

/-- C7: the parameter block has exactly one row per fetched accession row;
it is attached positionally — row i of the concatenation is row i of the
assembly-joined table followed by the constant parameter row, with no key
involved; and the row-count agreement this presupposes is not checked:
on a concrete input whose assembly join yields 2 rows against 1 accession
row, the pipeline still proceeds and the extra row's parameter cells are
NaN. -/
theorem parameter_block_positional :
    (∀ acc : List Accession, (setParameters acc).rows.length = acc.length) ∧
    (∀ (acc : List Accession) (names : List String) (i : Nat),
      i < (projectAssembly acc names).rows.length → i < acc.length →
      (projectAssemblyParams acc names).rows.getD i []
        = (projectAssembly acc names).rows.getD i [] ++ parameterRow) ∧
    ((projectAssembly [⟨"S", "SA", "R1"⟩] ["R1_a", "R1_b"]).rows.length = 2 ∧
     ([⟨"S", "SA", "R1"⟩] : List Accession).length = 1 ∧
     (projectAssemblyParams [⟨"S", "SA", "R1"⟩] ["R1_a", "R1_b"]).rows.length = 2 ∧
     ((projectAssemblyParams [⟨"S", "SA", "R1"⟩] ["R1_a", "R1_b"]).rows.getD 1 []).getD 4
        Cell.nan = Cell.nan) := by
  refine ⟨fun acc => by simp [setParameters], ?_, by decide⟩
  intro acc names i hiM hiN
  have hmax : i < max (projectAssembly acc names).rows.length
      (setParameters acc).rows.length := by
    have hsp : (setParameters acc).rows.length = acc.length := by simp [setParameters]
    omega
  rw [projectAssemblyParams, DataFrame.concatCols]
  rw [List.getD_eq_getElem?_getD, List.getElem?_map, List.getElem?_range hmax]
  simp only [Option.map_some', Option.getD_some]
  rw [setParameters_getD acc hiN]
  congr 1
  rw [List.getD_eq_getElem _ _ hiM, List.getD_eq_getElem _ _ hiM]

/-- Witness for C7's positional-attachment conjunct at row 0. -/
theorem parameter_block_positional_witness :
    (projectAssemblyParams [⟨"S1", "SA1", "R1"⟩] ["R1_n1"]).rows.getD 0 []
      = (projectAssembly [⟨"S1", "SA1", "R1"⟩] ["R1_n1"]).rows.getD 0 []
        ++ parameterRow :=
  parameter_block_positional.2.1 [⟨"S1", "SA1", "R1"⟩] ["R1_n1"] 0
    (by decide) (by decide)

/-- C9: if all the reference lines derive the same run key `r`, which is
the run accession of one of N pairwise-distinct accession rows, the inner
join yields one output row per reference line — k rows for that run — so
with k > N the table (and, on the concrete instance recorded in the last
conjunct, the final written table) has more rows than the accession
table: the never-more-than-N bound only holds for pairwise distinct
derived keys. -/
theorem duplicate_keys_multiply (acc : List Accession) (lines : List String)
    (r : String) (hnr : (acc.map Accession.run).Nodup)
    (hr : r ∈ acc.map Accession.run)
    (hk : ∀ l ∈ lines, deriveKey '_' l = r) :
    (projectAssembly acc lines).rows.length = lines.length ∧
    ((projectAssembly acc lines).rows.filter (fun row =>
        decide (row.getD 2 Cell.nan = Cell.str r))).length = lines.length ∧
    (acc.length < lines.length →
      acc.length < (projectAssembly acc lines).rows.length) ∧
    (totalMetadata [⟨"S1", "SA1", "R1"⟩, ⟨"S1", "SA2", "R2"⟩]
        ["R1_a", "R1_b", "R1_c"] ["R1.f", "R2.f"] ["R1_c1", "R2_c2"]).rows.length
      = 3 := by
  have hd : refDelim ["ASSEMBLYNAME", "run_accession"] = '_' := rfl
  have hrows : (projectAssembly acc lines).rows
      = acc.flatMap (fun a =>
          (lines.filter (fun l => decide (deriveKey '_' l = a.run))).map
            (fun l => [Cell.str a.study, Cell.str a.sample, Cell.str a.run,
                       Cell.str l])) := by
    have h := mergeOn_linked_rows acc lines "ASSEMBLYNAME" (by decide)
    rw [hd] at h
    exact h
  have hlen : (projectAssembly acc lines).rows.length = lines.length := by
    rw [hrows, List.length_flatMap]
    have hcong : acc.map (List.length ∘ fun a =>
        (lines.filter (fun l => decide (deriveKey '_' l = a.run))).map
          (fun l => [Cell.str a.study, Cell.str a.sample, Cell.str a.run,
                     Cell.str l]))
        = acc.map (fun a => if a.run = r then lines.length else 0) := by
      refine List.map_congr_left (fun a _ => ?_)
      by_cases ha : a.run = r
      · rw [if_pos ha]
        simp only [Function.comp_apply, List.length_map]
        rw [List.filter_eq_self.mpr (fun l hl => by simp [hk l hl, ha])]
      · rw [if_neg ha]
        simp only [Function.comp_apply, List.length_map]
        rw [List.filter_eq_nil_iff.mpr (fun l hl => by
          simp only [hk l hl, decide_eq_true_eq]
          exact fun he => ha he.symm)]
        rfl
    rw [hcong]
    have hmm : acc.map (fun a => if a.run = r then lines.length else 0)
        = (acc.map Accession.run).map (fun x => if x = r then lines.length else 0) := by
      rw [List.map_map]
      rfl
    rw [hmm]
    exact sum_ite_single (acc.map Accession.run) r lines.length hnr hr
  refine ⟨hlen, ?_, fun h => by rw [hlen]; exact h, by decide⟩
  have hall : ∀ row ∈ (projectAssembly acc lines).rows,
      (fun row => decide (row.getD 2 Cell.nan = Cell.str r)) row = true := by
    intro row hrow
    rw [hrows] at hrow
    rcases List.mem_flatMap.mp hrow with ⟨a, _, hmem⟩
    rcases List.mem_map.mp hmem with ⟨l, hl, hrow2⟩
    rcases List.mem_filter.mp hl with ⟨hl1, hl2⟩
    have har : a.run = r := (of_decide_eq_true hl2).symm.trans (hk l hl1)
    simp [← hrow2, har]
  rw [List.filter_eq_self.mpr hall, hlen]

/-- Witness for C9 at three duplicate-keyed lines against two runs. -/
theorem duplicate_keys_multiply_witness :
    (projectAssembly [⟨"S1", "SA1", "R1"⟩, ⟨"S1", "SA2", "R2"⟩]
        ["R1_a", "R1_b", "R1_c"]).rows.length = 3 :=
  (duplicate_keys_multiply [⟨"S1", "SA1", "R1"⟩, ⟨"S1", "SA2", "R2"⟩]
    ["R1_a", "R1_b", "R1_c"] "R1" (by decide) (by decide)
    (by intro l hl; fin_cases hl <;> rfl)).1

/-- C2 counterexample: with `ORACLE_CLIENT_LIB` unset the run does exit
with code 1, but the credential prompt occurs strictly before the
termination — `fetch_metadata` calls `get_oracle_usr_pwd` before
`setup_connection` performs the environment check — refuting "this
termination happens before any credential prompt". -/
theorem env_check_order_counterexample :
    (fetch_metadata ⟨none, fun _ => false, false, []⟩).2 = Outcome.exited 1 ∧
    Event.promptCredentials ∈
      (fetch_metadata ⟨none, fun _ => false, false, []⟩).1.takeWhile
        (fun e => decide (e ≠ Event.exitCall 1)) := by
  constructor
  · rfl
  · decide

/-- C2 amended: if `ORACLE_CLIENT_LIB` is unset, empty, or does not name
an existing directory, the program terminates with exit code 1 after
writing a diagnostic to the error stream, before any connection attempt
or database query — but after the credential prompt, which is the one
event preceding the diagnostic. -/
theorem env_check_fatal (w : World)
    (h : ∀ d, w.oracleClientLib = some d → d = "" ∨ w.isDirectory d = false) :
    (fetch_metadata w).1
      = [Event.promptCredentials, Event.stderrWrite clientLibErrMsg,
         Event.exitCall 1] ∧
    (fetch_metadata w).2 = Outcome.exited 1 ∧
    Event.dbQuery ∉ (fetch_metadata w).1 ∧
    Event.connectAttempt ∉ (fetch_metadata w).1 := by
  have hs : setup_connection w
      = ([Event.stderrWrite clientLibErrMsg, Event.exitCall 1], Outcome.exited 1) := by
    cases hl : w.oracleClientLib with
    | none => simp [setup_connection, hl]
    | some d =>
      rcases h d hl with h1 | h1 <;> simp [setup_connection, hl, h1]
  have hf : fetch_metadata w
      = ([Event.promptCredentials, Event.stderrWrite clientLibErrMsg,
          Event.exitCall 1], Outcome.exited 1) := by
    simp [fetch_metadata, hs]
  refine ⟨by rw [hf], by rw [hf], ?_, ?_⟩ <;> rw [hf] <;> decide

/-- Witness for C2's amended theorem: a world with the variable unset. -/
theorem env_check_fatal_witness :
    (fetch_metadata ⟨none, fun _ => true, true, []⟩).2 = Outcome.exited 1 :=
  (env_check_fatal ⟨none, fun _ => true, true, []⟩
    (fun _ hd => Option.noConfusion hd)).2.1

/-- C5: when the database connection attempt fails, the error is caught
and printed, execution continues without termination (no `exit` call in
the trace), the connection reference remains unset
(`setup_connection` returns normally with no connection), and
`fetch_metadata` returns no data instead of raising. -/
theorem connection_failure_nonfatal (w : World) (d : String)
    (hl : w.oracleClientLib = some d) (hne : d ≠ "")
    (hdir : w.isDirectory d = true) (hc : w.connectSucceeds = false) :
    setup_connection w
      = ([Event.initOracleClient d, Event.connectAttempt, Event.printError],
         Outcome.normal false) ∧
    fetch_metadata w
      = ([Event.promptCredentials, Event.initOracleClient d, Event.connectAttempt,
          Event.printError], Outcome.normal none) ∧
    (∀ c, Event.exitCall c ∉ (fetch_metadata w).1) ∧
    Event.dbQuery ∉ (fetch_metadata w).1 := by
  have hs : setup_connection w
      = ([Event.initOracleClient d, Event.connectAttempt, Event.printError],
         Outcome.normal false) := by
    simp [setup_connection, hl, hne, hdir, hc]
  have hf : fetch_metadata w
      = ([Event.promptCredentials, Event.initOracleClient d, Event.connectAttempt,
          Event.printError], Outcome.normal none) := by
    simp [fetch_metadata, hs]
  refine ⟨hs, hf, ?_, ?_⟩
  · intro c
    rw [hf]
    simp
  · rw [hf]
    simp

/-- Witness for C5 at a concrete world whose connection attempt fails. -/
theorem connection_failure_nonfatal_witness :
    fetch_metadata ⟨some "lib", fun _ => true, false, []⟩
      = ([Event.promptCredentials, Event.initOracleClient "lib",
          Event.connectAttempt, Event.printError], Outcome.normal none) :=
  (connection_failure_nonfatal ⟨some "lib", fun _ => true, false, []⟩ "lib"
    rfl (by decide) rfl rfl).2.1
